import Mathlib

/-!
# signald: a shallow embedding of `signald.go`

The Go package keeps one `Monitor` per subscription.  The embedding has two
layers.

* `Monitor` carries the fields of the Go struct.  The four mutexes are left out:
  every method body, the receive of the dispatch loop, the body of one
  iteration and the done goroutine are each one atomic step.
* `World` adds what the Go runtime holds for that monitor: the calls made to
  `signal.Notify`, the goroutines launched by `Start`, and the trace of
  observable events (log lines, handler invocations, the close of `doneC`).
  `World.step` interleaves method calls, arrivals of signals and scheduling
  steps of the two goroutines.

Values of the Go type `os.Signal` are `Option Nat`: `none` is the nil interface
and `some n` is `syscall.Signal(n)`.  A handler is a non-nil Go function value,
given by its code pointer (the identity `Bind` and `Unbind` use) and its
closure; invoking it is recorded as an event, it returns to its caller and
does not itself call a method of the monitor.  Channel operations follow the
Go runtime: closing a nil or closed channel panics, a send on a closed channel
panics, and a closed channel still hands out what its buffer holds.
-/

namespace Signald

/-- A signal number, the Go type `syscall.Signal`. -/
abbrev Signal := Nat

/-- A value of the Go interface type `os.Signal`; `none` is nil. -/
abbrev OsSignal := Option Signal

/-- The package variables `KillSignals`, `RestartSignal` and `log`. -/
structure Globals where
  KillSignals : List OsSignal
  RestartSignal : OsSignal
  log : Nat
deriving DecidableEq, Repr

/-- The initial values of the package variables:
`KillSignals = {SIGINT, SIGTERM}`, `RestartSignal` nil. -/
def defaultGlobals : Globals := ⟨[some 2, some 15], none, 0⟩

/-- A Go function value of type `func(os.Signal)`: the code pointer that
`reflect.ValueOf(f).Pointer()` returns, and the closure it was built over. -/
structure Handler where
  code : Nat
  env : Nat
deriving DecidableEq, Repr

/-- The result of `reflect.ValueOf(f).Pointer()`. -/
def Pointer (f : Handler) : Nat := f.code

/-- One entry of `Monitor.callbacks`. -/
structure Callback where
  ptr : Nat
  f : Handler
deriving DecidableEq, Repr

/-- The channel `this.c`, made with capacity 1. -/
structure SigChan where
  buf : List Signal
  closed : Bool
deriving DecidableEq, Repr

/-- The channel `this.doneC`; nothing is ever sent on it, it is only closed. -/
structure DoneChan where
  closed : Bool
deriving DecidableEq, Repr

/-- The fields of the Go struct `Monitor` (mutexes omitted). -/
structure Monitor where
  Log : Option Nat
  callbacks : List Callback
  started : Bool
  done : List Handler
  restarts : List Handler
  c : Option SigChan
  doneC : Option DoneChan
  restartSignal : OsSignal
deriving DecidableEq, Repr

/-- The zero value of `Monitor`. -/
def Monitor.zero : Monitor :=
  { Log := none, callbacks := [], started := false, done := [], restarts := [],
    c := none, doneC := none, restartSignal := none }

/-- Run-time panics of the Go runtime that the modelled code can raise. -/
inductive Fault where
  | closeNilChannel
  | closeClosedChannel
  | sendClosedChannel
  | nilDereference
deriving DecidableEq, Repr

deriving instance DecidableEq for Except

/-- The three callback registries. -/
inductive Registry where
  | generic
  | restart
  | done
deriving DecidableEq, Repr

/-- Observable events. -/
inductive Event where
  | notice (sig : Signal)
  | call (r : Registry) (f : Handler) (sig : Signal)
  | closeDoneC
deriving DecidableEq, Repr

/-- What a dispatch iteration does to the loop: go on to the next receive, or
launch the done goroutine (which captures `sig`) and return. -/
inductive LoopCtl where
  | next
  | ret (sig : Signal)
deriving DecidableEq, Repr

/-- The result of `Monitor.Wait`: the call returns, or it is blocked on the
receive from `doneC` (and returns once `doneC` is closed). -/
inductive WaitResult where
  | returned
  | blocked
deriving DecidableEq, Repr

/-! ## Registration methods -/

/-- `func (this *Monitor) Restartable()`. -/
def Monitor.Restartable (g : Globals) (this : Monitor) : Monitor :=
  { this with restartSignal := g.RestartSignal }

/-- `func (this *Monitor) Restarts(f)`. -/
def Monitor.Restarts (this : Monitor) (f : Handler) : Monitor :=
  { this with restarts := this.restarts ++ [f] }

/-- `func (this *Monitor) Done(f)`. -/
def Monitor.Done (this : Monitor) (f : Handler) : Monitor :=
  { this with done := this.done ++ [f] }

/-- `func (this *Monitor) Bind(f)`. -/
def Monitor.Bind (this : Monitor) (f : Handler) : Monitor :=
  { this with callbacks := this.callbacks ++ [⟨Pointer f, f⟩] }

/-- The `for i, cb := range this.callbacks` loop of `Unbind`: `all` is
`this.callbacks`, `i` the index of the head of the entries still to visit.
At the first entry with `cb.ptr == ptr` the result is
`append(all[0:i], all[i+1:]...)`; when the range ends the slice is untouched. -/
def unbindLoop (all : List Callback) (ptr : Nat) : Nat → List Callback → List Callback
  | _, [] => all
  | i, cb :: rest =>
    if cb.ptr = ptr then all.take i ++ all.drop (i + 1)
    else unbindLoop all ptr (i + 1) rest

/-- The calls `Bind(h1)`, ..., `Bind(hn)` in sequence. -/
def bindAll (this : Monitor) (hs : List Handler) : Monitor :=
  hs.foldl Monitor.Bind this

/-- `func (this *Monitor) Unbind(f)`. -/
def Monitor.Unbind (this : Monitor) (f : Handler) : Monitor :=
  { this with callbacks := unbindLoop this.callbacks (Pointer f) 0 this.callbacks }

/-- `func (this *Monitor) Stop()`: `close(this.c)`.  Closing a nil channel and
closing a closed channel both panic. -/
def Monitor.Stop (this : Monitor) : Except Fault Monitor :=
  match this.c with
  | none => .error .closeNilChannel
  | some ch =>
    if ch.closed then .error .closeClosedChannel
    else .ok { this with c := some { ch with closed := true } }

/-- `func (this *Monitor) Wait()`: `if this.doneC != nil { <-this.doneC }`. -/
def Monitor.Wait (this : Monitor) : WaitResult :=
  match this.doneC with
  | none => .returned
  | some d => if d.closed then .returned else .blocked

/-! ## The body of the dispatch goroutine -/

/-- The `for _, s := range KillSignals` loop at the end of an iteration: at the
first `s` equal to `sig` the done goroutine is launched and the loop
goroutine returns. -/
def killLoop (sig : Signal) : List OsSignal → LoopCtl
  | [] => .next
  | s :: rest => if s ≠ some sig then killLoop sig rest else .ret sig

/-- One iteration of `for sig = range this.c` for the received `sig`. -/
def dispatch (g : Globals) (this : Monitor) (sig : Signal) :
    Except Fault (List Event × LoopCtl) :=
  match this.Log with
  | none => .error .nilDereference
  | some _ =>
    if some sig = this.restartSignal then
      .ok (Event.notice sig :: this.restarts.map (fun cb => Event.call .restart cb sig),
        .next)
    else
      .ok (Event.notice sig :: this.callbacks.map (fun cb => Event.call .generic cb.f sig),
        killLoop sig g.KillSignals)

/-- The goroutine launched on a terminal signal: the done handlers, then
`close(this.doneC)`. -/
def doneTask (this : Monitor) (sig : Signal) : Except Fault (List Event × Monitor) :=
  match this.doneC with
  | none => .error .closeNilChannel
  | some d =>
    if d.closed then .error .closeClosedChannel
    else .ok (this.done.map (fun cb => Event.call .done cb sig) ++ [Event.closeDoneC],
      { this with doneC := some { d with closed := true } })

/-! ## The monitor together with the runtime -/

/-- A monitor and the runtime state attached to it. -/
structure World where
  m : Monitor
  /-- The argument lists of the calls `signal.Notify(this.c, sig...)`. -/
  subscriptions : List (List OsSignal)
  /-- The number of channels made by `Start`. -/
  made : Nat
  /-- The number of dispatch goroutines launched by `Start`. -/
  launched : Nat
  /-- Whether the dispatch goroutine is alive. -/
  running : Bool
  /-- The loop variable `sig` of the dispatch goroutine, when it holds a signal
  received from `this.c` whose iteration body has not run yet. -/
  inflight : Option Signal
  /-- Done goroutines launched and not yet run, with the signal each captured. -/
  pending : List Signal
  trace : List Event
deriving DecidableEq, Repr

/-- A zero-valued monitor in a process that has done nothing with it. -/
def World.fresh : World :=
  { m := Monitor.zero, subscriptions := [], made := 0, launched := 0,
    running := false, inflight := none, pending := [], trace := [] }

/-- `func (this *Monitor) Start(sig ...os.Signal)`. -/
def World.Start (g : Globals) (w : World) (sig : List OsSignal) : World :=
  if w.m.started then w
  else
    let sig := if sig.length = 0 then sig ++ (g.KillSignals ++ [g.RestartSignal]) else sig
    { w with
      m := { w.m with
        started := true
        Log := if w.m.Log = none then some g.log else w.m.Log
        doneC := some ⟨false⟩
        c := some ⟨[], false⟩ }
      subscriptions := w.subscriptions ++ [sig]
      made := w.made + 2
      launched := w.launched + 1
      running := true
      inflight := none }

/-- The package-level `func Wait()`: `m.Start(); m.Wait()`. -/
def Wait (g : Globals) (w : World) : World × WaitResult :=
  let w1 := World.Start g w []
  (w1, w1.m.Wait)

/-- Whether `os/signal` forwards `s` to the monitor channel: `s` was named in a
`Notify` call (nil entries of the argument list name no signal). -/
def World.wants (w : World) (s : Signal) : Bool :=
  w.subscriptions.any (fun l => l.contains (some s))

/-- The arrival of signal `s` in the process: for a subscribed signal
`os/signal` does a non-blocking send on the channel, which panics when the
channel is closed and drops the signal when the buffer is full. -/
def World.deliver (w : World) (s : Signal) : Except Fault World :=
  if w.wants s then
    match w.m.c with
    | none => .ok w
    | some ch =>
      if ch.closed then .error .sendClosedChannel
      else if ch.buf.length < 1 then
        .ok { w with m := { w.m with c := some { ch with buf := ch.buf ++ [s] } } }
      else .ok w
  else .ok w

/-- The dispatch goroutine, waiting at `for sig = range this.c`, takes its next
step: it receives the head of the buffer into `sig`, stays blocked on an empty
open channel, or ends on an empty closed one. The methods take no lock that
the receive holds, so any of them can run between this step and the body. -/
def World.receive (w : World) : Except Fault World :=
  if w.running then
    match w.inflight with
    | some _ => .ok w
    | none =>
      match w.m.c with
      | none => .ok w
      | some ch =>
        match ch.buf with
        | [] => if ch.closed then .ok { w with running := false } else .ok w
        | sig :: rest =>
          .ok { w with m := { w.m with c := some { ch with buf := rest } }
                       inflight := some sig }
  else .ok w

/-- The dispatch goroutine runs the body of the iteration for the signal it has
received, and goes back to the receive or returns. The body does not read the
channel, so a `Stop` that falls inside it acts as a `Stop` just before it. -/
def World.loopBody (g : Globals) (w : World) : Except Fault World :=
  if w.running then
    match w.inflight with
    | none => .ok w
    | some sig =>
      match dispatch g w.m sig with
      | .error e => .error e
      | .ok (evs, ctl) =>
        let w1 : World := { w with inflight := none, trace := w.trace ++ evs }
        match ctl with
        | .next => .ok w1
        | .ret s => .ok { w1 with running := false, pending := w1.pending ++ [s] }
  else .ok w

/-- The oldest launched done goroutine runs to completion. -/
def World.runDone (w : World) : Except Fault World :=
  match w.pending with
  | [] => .ok w
  | sig :: rest =>
    match doneTask w.m sig with
    | .error e => .error e
    | .ok (evs, m1) => .ok { w with m := m1, pending := rest, trace := w.trace ++ evs }

/-- What can happen to a monitor: a call of one of its methods, the arrival of
a signal, or a scheduling step of one of its goroutines. -/
inductive Action where
  | Bind (f : Handler)
  | Unbind (f : Handler)
  | Restarts (f : Handler)
  | Done (f : Handler)
  | Restartable
  | Start (sig : List OsSignal)
  | Stop
  | Wait
  | deliver (s : Signal)
  | receive
  | loopBody
  | runDone
deriving DecidableEq, Repr

/-- The actions that are calls of a `Monitor` method. -/
def Action.isCall : Action → Bool
  | .deliver _ => false
  | .receive => false
  | .loopBody => false
  | .runDone => false
  | _ => true

/-- One action. `Wait` only observes the monitor. -/
def World.step (g : Globals) (w : World) : Action → Except Fault World
  | .Bind f => .ok { w with m := w.m.Bind f }
  | .Unbind f => .ok { w with m := w.m.Unbind f }
  | .Restarts f => .ok { w with m := w.m.Restarts f }
  | .Done f => .ok { w with m := w.m.Done f }
  | .Restartable => .ok { w with m := w.m.Restartable g }
  | .Start sig => .ok (w.Start g sig)
  | .Stop =>
    match w.m.Stop with
    | .error e => .error e
    | .ok m1 => .ok { w with m := m1 }
  | .Wait => .ok w
  | .deliver s => w.deliver s
  | .receive => w.receive
  | .loopBody => w.loopBody g
  | .runDone => w.runDone

/-- A sequence of actions, stopping at the first panic. -/
def World.run (g : Globals) (w : World) : List Action → Except Fault World
  | [] => .ok w
  | a :: as =>
    match w.step g a with
    | .error e => .error e
    | .ok w1 => World.run g w1 as

/-- The monitor was started and none of its goroutines can do anything more: no
done goroutine is waiting to run, and the dispatch goroutine has returned or
is at the receive and about to find its channel closed and empty. -/
def World.Quiet (w : World) : Prop :=
  w.m.started = true ∧ w.pending = [] ∧
    (w.running = false ∨ (w.inflight = none ∧ w.m.c = some ⟨[], true⟩))

/-- What the trace records about shutdown: every launched done goroutine
captured a member of `KillSignals` whose receipt was logged; `doneC` exists;
and if it is closed, the close follows the log line of a member of
`KillSignals`. -/
def World.DoneInv (g : Globals) (w : World) : Prop :=
  (∀ sig ∈ w.pending, some sig ∈ g.KillSignals ∧ Event.notice sig ∈ w.trace) ∧
  (∀ d, w.m.doneC = some d → d.closed = true →
    ∃ sig pre post, some sig ∈ g.KillSignals ∧
      w.trace = pre ++ Event.closeDoneC :: post ∧ Event.notice sig ∈ pre) ∧
  w.m.doneC ≠ none

/-- The state of a monitor with respect to its dispatch goroutine: before `Start`
nothing runs; while the loop runs the monitor is started, has a logger and
a channel, `doneC` is open and no done goroutine has been launched. -/
def World.LoopInv (w : World) : Prop :=
  (w.m.started = false → w.running = false ∧ w.pending = []) ∧
  (w.running = true →
    w.m.started = true ∧ w.m.Log ≠ none ∧ w.m.doneC = some ⟨false⟩ ∧ w.pending = [] ∧
      w.m.c ≠ none)

/-! ## Sample inputs -/

/-- Signal `s` arriving `k` times, each arrival followed by the receive and the
iteration body of the loop before the next arrival. -/
def deliveries (s : Signal) : Nat → List Action
  | 0 => []
  | k + 1 => .deliver s :: .receive :: .loopBody :: deliveries s k

/-- A handler with code pointer 7. -/
def sampleHandler : Handler := ⟨7, 0⟩

/-- A started monitor (default globals, default signals) on which `sampleHandler`
has been bound once. -/
def boundOnceMonitor : Monitor := (World.Start defaultGlobals World.fresh []).m.Bind sampleHandler

/-- Package variables with `RestartSignal` set to signal 1. -/
def restartGlobals : Globals := ⟨[some 2, some 15], some 1, 0⟩

/-- A zero-valued monitor after `Restartable()`, `Restarts(r)`, `Bind(sampleHandler)`,
`Done(d)` and `Start()` under `restartGlobals`. -/
def restartableWorld : World :=
  World.Start restartGlobals
    { World.fresh with
      m := (((Monitor.zero.Restartable restartGlobals).Restarts ⟨5, 0⟩).Bind ⟨7, 0⟩).Done ⟨6, 0⟩ } []

/-- Package variables whose `KillSignals` lists signal 2 twice. -/
def repeatedKillGlobals : Globals := ⟨[some 2, some 15, some 2], none, 0⟩

/-- A zero-valued monitor after `Bind`, `Done` and `Start()` under `repeatedKillGlobals`,
with signal 2 arrived in its channel. -/
def pendingSignalWorld : World :=
  { m := { Log := some 0, callbacks := [⟨7, ⟨7, 0⟩⟩], started := true, done := [⟨6, 0⟩],
           restarts := [], c := some ⟨[2], false⟩, doneC := some ⟨false⟩,
           restartSignal := none },
    subscriptions := [[some 2, some 15, some 2, none]], made := 2, launched := 1,
    running := true, inflight := none, pending := [], trace := [] }

/-- The world `pendingSignalWorld` after the loop has received signal 2 and before
it runs the iteration body: the buffer is empty and the channel open. -/
def receivedSignalWorld : World :=
  { pendingSignalWorld with
    m := { pendingSignalWorld.m with c := some ⟨[], false⟩ }
    inflight := some 2 }

/-! ## Unbind -/

/-- The index loop of `Unbind`, started anywhere in the slice, keeps the
entries already visited and drops the first matching entry among the rest. -/
theorem unbindLoop_eq_eraseP (ptr : Nat) (pre rest : List Callback) :
    unbindLoop (pre ++ rest) ptr pre.length rest
      = pre ++ rest.eraseP (fun cb => decide (cb.ptr = ptr)) := by
  induction rest generalizing pre with
  | nil => simp [unbindLoop]
  | cons cb rest ih =>
    by_cases hcb : cb.ptr = ptr
    · simp [unbindLoop, hcb, List.eraseP_cons]
    · have h := ih (pre ++ [cb])
      simp only [List.append_assoc, List.singleton_append, List.length_append,
        List.length_singleton] at h
      simp [unbindLoop, hcb, List.eraseP_cons, h]

/-- The callbacks after `Unbind`. -/
theorem Unbind_callbacks (m : Monitor) (h : Handler) :
    (m.Unbind h).callbacks = m.callbacks.eraseP (fun cb => decide (cb.ptr = Pointer h)) := by
  have := unbindLoop_eq_eraseP (Pointer h) [] m.callbacks
  simpa [Monitor.Unbind] using this

/-- C2: `Unbind(h)` leaves the restart registry, the done registry and the
started flag as they were. If no generic entry has the identity of `h` the
monitor is unchanged; otherwise the registry splits as `pre ++ cb :: post`
with `cb` the first entry of that identity, and the new registry is
`pre ++ post`, one entry shorter. -/
theorem Unbind_removes_first_match (m : Monitor) (h : Handler) :
    (m.Unbind h).restarts = m.restarts ∧ (m.Unbind h).done = m.done ∧
    (m.Unbind h).started = m.started ∧
    (((∀ cb ∈ m.callbacks, cb.ptr ≠ Pointer h) ∧ m.Unbind h = m) ∨
     (∃ pre cb post, m.callbacks = pre ++ cb :: post ∧
        (∀ x ∈ pre, x.ptr ≠ Pointer h) ∧ cb.ptr = Pointer h ∧
        (m.Unbind h).callbacks = pre ++ post ∧
        (m.Unbind h).callbacks.length + 1 = m.callbacks.length)) := by
  refine ⟨rfl, rfl, rfl, ?_⟩
  by_cases hex : ∃ cb ∈ m.callbacks, cb.ptr = Pointer h
  · right
    obtain ⟨cb, hmem, hcb⟩ := hex
    obtain ⟨a, l₁, l₂, hno, ha, hsplit, herase⟩ :=
      List.exists_of_eraseP (p := fun cb => decide (cb.ptr = Pointer h)) hmem (by simpa using hcb)
    refine ⟨l₁, a, l₂, hsplit, ?_, by simpa using ha, ?_, ?_⟩
    · intro x hx
      simpa using hno x hx
    · rw [Unbind_callbacks, herase]
    · rw [Unbind_callbacks, herase, hsplit]
      simp
      omega
  · left
    have hno : ∀ cb ∈ m.callbacks, cb.ptr ≠ Pointer h := by
      intro cb hmem hcb
      exact hex ⟨cb, hmem, hcb⟩
    refine ⟨hno, ?_⟩
    have hcbs : (m.Unbind h).callbacks = m.callbacks := by
      rw [Unbind_callbacks]
      apply List.eraseP_of_forall_not
      intro a ha
      simpa using hno a ha
    cases m
    simp only [Monitor.Unbind] at hcbs ⊢
    simp [hcbs]

/-! ## Dispatch of an ordinary signal -/

theorem bindAll_callbacks (hs : List Handler) (m : Monitor) :
    (bindAll m hs).callbacks = m.callbacks ++ hs.map (fun h => ⟨Pointer h, h⟩) := by
  induction hs generalizing m with
  | nil => simp [bindAll]
  | cons h hs ih =>
    have := ih (m.Bind h)
    simp only [bindAll, List.foldl_cons] at this ⊢
    rw [this]
    simp [Monitor.Bind]

theorem bindAll_frame (hs : List Handler) (m : Monitor) :
    (bindAll m hs).Log = m.Log ∧ (bindAll m hs).restartSignal = m.restartSignal ∧
    (bindAll m hs).restarts = m.restarts ∧ (bindAll m hs).done = m.done ∧
    (bindAll m hs).started = m.started := by
  induction hs generalizing m with
  | nil => simp [bindAll]
  | cons h hs ih =>
    have := ih (m.Bind h)
    simp only [bindAll, List.foldl_cons] at this ⊢
    simpa [Monitor.Bind] using this

/-- The monitor after a `Start` that was not a no-op. -/
theorem Start_m_of_not_started (g : Globals) (w : World) (sig : List OsSignal)
    (h : w.m.started = false) :
    (World.Start g w sig).m
      = { w.m with
          started := true
          Log := if w.m.Log = none then some g.log else w.m.Log
          doneC := some ⟨false⟩
          c := some ⟨[], false⟩ } := by
  simp [World.Start, h]

theorem killLoop_of_not_mem (sig : Signal) (ks : List OsSignal) (h : some sig ∉ ks) :
    killLoop sig ks = .next := by
  induction ks with
  | nil => rfl
  | cons k ks ih =>
    simp only [List.mem_cons, not_or] at h
    have hk : k ≠ some sig := fun e => h.1 e.symm
    simp [killLoop, hk, ih h.2]

theorem killLoop_of_mem (sig : Signal) (ks : List OsSignal) (h : some sig ∈ ks) :
    killLoop sig ks = .ret sig := by
  induction ks with
  | nil => simp at h
  | cons k ks ih =>
    by_cases hk : k = some sig
    · simp [killLoop, hk]
    · have : some sig ∈ ks := by
        rcases List.mem_cons.mp h with e | e
        · exact absurd e.symm hk
        · exact e
      simp [killLoop, hk, ih this]

/-- The iteration for a signal that is not the restart signal. -/
theorem dispatch_generic (g : Globals) (m : Monitor) (s : Signal)
    (hlog : m.Log ≠ none) (hr : m.restartSignal ≠ some s) :
    dispatch g m s
      = .ok (Event.notice s :: m.callbacks.map (fun cb => Event.call .generic cb.f s),
          killLoop s g.KillSignals) := by
  have hr2 : ¬ some s = m.restartSignal := fun e => hr e.symm
  cases hl : m.Log with
  | none => exact absurd hl hlog
  | some l => simp [dispatch, hl, hr2]

/-- C1: after `Bind(h1) ... Bind(hn)` on a monitor whose generic registry was
empty, the iteration for a received signal that is neither the restart signal
nor in `KillSignals` logs the signal, calls exactly `h1 ... hn` in that order
with the signal as argument, calls no restart or done handler, and goes on to
the next receive. The second part is the same for a zero-valued monitor bound
before `Start`. -/
theorem dispatch_after_binds (g : Globals) (m : Monitor) (hs : List Handler) (s : Signal)
    (sigs : List OsSignal)
    (hcb : m.callbacks = []) (hlog : m.Log ≠ none)
    (hr : m.restartSignal ≠ some s) (hk : some s ∉ g.KillSignals) :
    dispatch g (bindAll m hs) s
      = .ok (Event.notice s :: hs.map (fun h => Event.call .generic h s), .next) ∧
    dispatch g (World.Start g { World.fresh with m := bindAll Monitor.zero hs } sigs).m s
      = .ok (Event.notice s :: hs.map (fun h => Event.call .generic h s), .next) := by
  constructor
  · obtain ⟨h1, h2, -, -, -⟩ := bindAll_frame hs m
    rw [dispatch_generic g _ s (by rw [h1]; exact hlog) (by rw [h2]; exact hr),
      killLoop_of_not_mem s _ hk, bindAll_callbacks, hcb]
    simp [List.map_map, Function.comp_def]
  · obtain ⟨h1, h2, -, -, h5⟩ := bindAll_frame hs Monitor.zero
    have h0 := bindAll_callbacks hs Monitor.zero
    generalize bindAll Monitor.zero hs = m0 at h1 h2 h5 h0 ⊢
    have hm := Start_m_of_not_started g { World.fresh with m := m0 } sigs h5
    simp only at hm
    rw [hm, dispatch_generic g _ s, killLoop_of_not_mem s _ hk]
    · simp [h0, Monitor.zero, List.map_map, Function.comp_def]
    · simp [h1, Monitor.zero]
    · simp [h2, Monitor.zero]

/-- Three binds, one handler bound twice, on a started zero-valued monitor. -/
theorem dispatch_after_binds_witness :
    dispatch defaultGlobals
        (bindAll (World.Start defaultGlobals World.fresh []).m [⟨1, 0⟩, ⟨2, 0⟩, ⟨1, 0⟩]) 10
      = .ok ([Event.notice 10, Event.call .generic ⟨1, 0⟩ 10, Event.call .generic ⟨2, 0⟩ 10,
          Event.call .generic ⟨1, 0⟩ 10], .next) :=
  (dispatch_after_binds defaultGlobals (World.Start defaultGlobals World.fresh []).m
    [⟨1, 0⟩, ⟨2, 0⟩, ⟨1, 0⟩] 10 [] (by decide) (by decide) (by decide) (by decide)).1

/-! ## Bind followed by Unbind -/

/-- Whatever the registry holds, `Bind(h)` then `Unbind(h)` takes out exactly one
entry with the identity of `h`: the registry has its old length, its old
number of entries of that identity, and its old entries of other identities. -/
theorem Bind_Unbind_count (m : Monitor) (h : Handler) :
    ((m.Bind h).Unbind h).callbacks.length = m.callbacks.length ∧
    ((m.Bind h).Unbind h).callbacks.countP (fun cb => decide (cb.ptr = Pointer h))
      = m.callbacks.countP (fun cb => decide (cb.ptr = Pointer h)) ∧
    ((m.Bind h).Unbind h).callbacks.filter (fun cb => decide (cb.ptr ≠ Pointer h))
      = m.callbacks.filter (fun cb => decide (cb.ptr ≠ Pointer h)) := by
  have hmem : (⟨Pointer h, h⟩ : Callback) ∈ (m.Bind h).callbacks := by simp [Monitor.Bind]
  obtain ⟨a, l₁, l₂, -, ha, hsplit, herase⟩ :=
    List.exists_of_eraseP (p := fun cb => decide (cb.ptr = Pointer h)) hmem (by simp)
  have ha2 : a.ptr = Pointer h := by simpa using ha
  have hb : (m.Bind h).callbacks = m.callbacks ++ [⟨Pointer h, h⟩] := rfl
  rw [Unbind_callbacks, herase]
  have hlen := congrArg List.length hsplit
  have hcnt := congrArg (List.countP (fun cb => decide (cb.ptr = Pointer h))) hsplit
  have hfil := congrArg (List.filter (fun cb => decide (cb.ptr ≠ Pointer h))) hsplit
  rw [hb] at hlen hcnt hfil
  simp [List.countP_cons, ha2] at hlen hcnt hfil
  refine ⟨?_, ?_, ?_⟩
  · simp; omega
  · simp; omega
  · simp [hfil]

/-- C3 (amended): when no entry of the generic registry has the identity of `h`
and every entry is filed under the identity of its own handler (as `Bind`
files it), `Bind(h)` followed by `Unbind(h)` gives back the monitor as it
was, and the iteration for a signal that is not the restart signal succeeds
without any call of `h`. -/
theorem Bind_Unbind_restores (g : Globals) (m : Monitor) (h : Handler) (s : Signal)
    (hwf : ∀ cb ∈ m.callbacks, cb.ptr = Pointer cb.f)
    (hnew : ∀ cb ∈ m.callbacks, cb.ptr ≠ Pointer h)
    (hlog : m.Log ≠ none) (hr : m.restartSignal ≠ some s) :
    (m.Bind h).Unbind h = m ∧
    ∃ evs ctl, dispatch g ((m.Bind h).Unbind h) s = .ok (evs, ctl) ∧
      ∀ r sig, Event.call r h sig ∉ evs := by
  have hcbs : ((m.Bind h).Unbind h).callbacks = m.callbacks := by
    rw [Unbind_callbacks]
    show (m.callbacks ++ [(⟨Pointer h, h⟩ : Callback)]).eraseP _ = m.callbacks
    rw [List.eraseP_append_right]
    · simp [List.eraseP_cons]
    · intro b hb
      simpa using hnew b hb
  have heq : (m.Bind h).Unbind h = m := by
    cases m
    simp only [Monitor.Unbind, Monitor.Bind] at hcbs ⊢
    simp [hcbs]
  refine ⟨heq, _, _, by rw [heq]; exact dispatch_generic g m s hlog hr, ?_⟩
  intro r sig hmem
  simp only [List.mem_cons, List.mem_map] at hmem
  rcases hmem with hmem | ⟨cb, hcb, hmem⟩
  · cases hmem
  · injection hmem with _ hf _
    exact hnew cb hcb (by rw [hwf cb hcb, hf])

/-- A handler of a new identity bound and unbound on a two-entry registry. -/
theorem Bind_Unbind_restores_witness :
    ((bindAll (World.Start defaultGlobals World.fresh []).m [⟨1, 0⟩, ⟨2, 0⟩]).Bind ⟨3, 0⟩).Unbind
        ⟨3, 0⟩
      = bindAll (World.Start defaultGlobals World.fresh []).m [⟨1, 0⟩, ⟨2, 0⟩] :=
  (Bind_Unbind_restores defaultGlobals
    (bindAll (World.Start defaultGlobals World.fresh []).m [⟨1, 0⟩, ⟨2, 0⟩]) ⟨3, 0⟩ 10
    (by decide) (by decide) (by decide) (by decide)).1

/-- C3 fails when the registry already holds `h`: `Bind(h)` then `Unbind(h)` takes
out the older entry, the registry still holds `h`, and the iteration for
signal 10 (not the restart signal, which is nil here) calls `h`. -/
theorem Bind_Unbind_still_invokes :
    boundOnceMonitor.restartSignal ≠ some 10 ∧
    ((boundOnceMonitor.Bind sampleHandler).Unbind sampleHandler).callbacks = [⟨7, sampleHandler⟩] ∧
    dispatch defaultGlobals ((boundOnceMonitor.Bind sampleHandler).Unbind sampleHandler) 10
      = .ok ([Event.notice 10, Event.call .generic sampleHandler 10], .next) := by
  decide

/-! ## Start -/

/-- After `Start` the monitor is started. -/
theorem Start_started (g : Globals) (w : World) (sig : List OsSignal) :
    (World.Start g w sig).m.started = true := by
  by_cases h : w.m.started = true
  · simp [World.Start, h]
  · simp [World.Start, h]

/-- C4: `Start(a)` followed by `Start(b)` leaves the monitor and its runtime
exactly as `Start(a)` alone does, whatever the state before and whatever the
package variables are at either call: no further `signal.Notify`, no further
goroutine, no newly made channel, the same `c` and `doneC`. -/
theorem Start_idempotent (g1 g2 : Globals) (w : World) (a b : List OsSignal) :
    World.Start g2 (World.Start g1 w a) b = World.Start g1 w a ∧
    (World.Start g2 (World.Start g1 w a) b).subscriptions
      = (World.Start g1 w a).subscriptions ∧
    (World.Start g2 (World.Start g1 w a) b).launched = (World.Start g1 w a).launched ∧
    (World.Start g2 (World.Start g1 w a) b).made = (World.Start g1 w a).made ∧
    (World.Start g2 (World.Start g1 w a) b).m.c = (World.Start g1 w a).m.c ∧
    (World.Start g2 (World.Start g1 w a) b).m.doneC = (World.Start g1 w a).m.doneC := by
  have h : World.Start g2 (World.Start g1 w a) b = World.Start g1 w a := by
    have hs := Start_started g1 w a
    generalize World.Start g1 w a = w1 at hs ⊢
    simp [World.Start, hs]
  simp [h]

/-- C8 (amended): on a monitor that is not started, `Start()` with no argument
calls `signal.Notify` once, with `KillSignals` followed by the package variable
`RestartSignal` (nil when unset, and then naming no signal), whether or not
`Restartable` was called on the monitor; `Start(sig...)` with a non-empty list
calls it once with that list. With no earlier subscription, the signals
forwarded to the monitor are exactly those. -/
theorem Start_subscribes (g : Globals) (w : World) (sig : List OsSignal) (s : Signal)
    (hst : w.m.started = false) (hsub : w.subscriptions = []) (hne : sig ≠ []) :
    (World.Start g w []).subscriptions = [g.KillSignals ++ [g.RestartSignal]] ∧
    ((World.Start g w []).wants s = true ↔ (some s ∈ g.KillSignals ∨ g.RestartSignal = some s)) ∧
    (World.Start g w sig).subscriptions = [sig] ∧
    ((World.Start g w sig).wants s = true ↔ some s ∈ sig) := by
  have hlen : ¬ sig.length = 0 := by
    intro h
    exact hne (List.length_eq_zero.mp h)
  refine ⟨?_, ?_, ?_, ?_⟩
  · simp [World.Start, hst, hsub]
  · rw [show (g.RestartSignal = some s) = (some s = g.RestartSignal) from propext eq_comm]
    simp [World.Start, World.wants, hst, hsub]
  · simp [World.Start, hst, hsub, hne]
  · simp [World.Start, World.wants, hst, hsub, hne]

/-- The default subscription and an explicit one, on a zero-valued monitor. -/
theorem Start_subscribes_witness :
    (World.Start defaultGlobals World.fresh []).subscriptions = [[some 2, some 15, none]] ∧
    (World.Start defaultGlobals World.fresh [some 10]).subscriptions = [[some 10]] :=
  ⟨(Start_subscribes defaultGlobals World.fresh [some 10] 2 rfl rfl (by decide)).1,
   (Start_subscribes defaultGlobals World.fresh [some 10] 2 rfl rfl (by decide)).2.2.1⟩

/-- C8 fails when the package variable `RestartSignal` is set (to 1 here) and
`Restartable` was not called on the monitor: no restart signal is designated
on it, yet `Start()` subscribes to signal 1 besides `KillSignals`. -/
theorem Start_subscribes_undesignated :
    World.fresh.m.restartSignal = none ∧
    (World.Start restartGlobals World.fresh []).m.restartSignal = none ∧
    (World.Start restartGlobals World.fresh []).subscriptions = [[some 2, some 15, some 1]] ∧
    (World.Start restartGlobals World.fresh []).wants 1 = true ∧
    some 1 ∉ restartGlobals.KillSignals := by
  decide

/-! ## Stop -/

/-- Every method call other than `Stop` completes. -/
theorem step_call_ok (g : Globals) (w : World) (a : Action)
    (hcall : a.isCall = true) (hns : a ≠ .Stop) : ∃ w1, w.step g a = .ok w1 := by
  cases a <;> simp [World.step, Action.isCall] at hcall hns ⊢

/-- C9 fails at `Stop`: on a monitor that was never started `Stop` panics closing
the nil channel, and a second `Stop` after `Start` panics closing the closed
channel. -/
theorem Stop_panics :
    World.run defaultGlobals World.fresh [.Stop] = .error .closeNilChannel ∧
    World.run defaultGlobals World.fresh [.Start [], .Stop, .Stop]
      = .error .closeClosedChannel := by
  decide

/-! ## The restart signal -/

/-- The iteration for the restart signal. -/
theorem dispatch_restart (g : Globals) (m : Monitor) (s : Signal)
    (hlog : m.Log ≠ none) (hr : m.restartSignal = some s) :
    dispatch g m s
      = .ok (Event.notice s :: m.restarts.map (fun cb => Event.call .restart cb s), .next) := by
  cases hl : m.Log with
  | none => exact absurd hl hlog
  | some l => simp [dispatch, hl, hr]

/-- The body of the iteration for a received restart signal, in the world. -/
theorem loopBody_restart (g : Globals) (w : World) (s : Signal)
    (hlog : w.m.Log ≠ none) (hr : w.m.restartSignal = some s)
    (hrun : w.running = true) (hin : w.inflight = some s) :
    w.loopBody g
      = .ok { w with
          inflight := none
          trace := w.trace ++
            Event.notice s :: w.m.restarts.map (fun cb => Event.call .restart cb s) } := by
  simp [World.loopBody, hrun, hin, dispatch_restart g w.m s hlog hr]

/-- One arrival of the restart signal at an idle running loop, the receive and
the iteration body. -/
theorem restart_round (g : Globals) (w : World) (s : Signal)
    (hlog : w.m.Log ≠ none) (hr : w.m.restartSignal = some s)
    (hrun : w.running = true) (hin : w.inflight = none)
    (hc : w.m.c = some ⟨[], false⟩) (hsub : w.wants s = true) :
    World.run g w [.deliver s, .receive, .loopBody]
      = .ok { w with trace := w.trace ++
          Event.notice s :: w.m.restarts.map (fun cb => Event.call .restart cb s) } := by
  obtain ⟨m, subs, made, launched, running, inflight, pending, trace⟩ := w
  obtain ⟨Log, callbacks, started, done, restarts, c, doneC, restartSignal⟩ := m
  simp only at hlog hr hrun hin hc
  subst hr hrun hin hc
  have hd := dispatch_restart g
    { Log := Log, callbacks := callbacks, started := started, done := done,
      restarts := restarts, c := some ⟨[], false⟩, doneC := doneC,
      restartSignal := some s } s hlog rfl
  simp [World.run, World.step, World.deliver, hsub, World.receive, World.loopBody, hd]

/-- C5 (amended): on a monitor on which `Restartable` was called, with `s` the
package restart signal, the iteration for `s` logs it, calls exactly the
restart handlers in registration order and goes on to the next receive,
whether or not `s` is in `KillSignals`; in the world, the body of the
iteration for a received `s` adds exactly those events and changes nothing
else, so no generic or done handler is called, no done goroutine is launched,
`doneC` is not closed and the loop is still running. When the monitor is
subscribed to `s`, the loop is waiting at the receive and the channel is open
and empty, `k` arrivals of `s`, each received and dispatched before the next
one arrives, call each restart handler exactly `k` times. -/
theorem restart_signal_only_restarts (g : Globals) (w0 : World) (s : Signal) (k : Nat)
    (hrs : g.RestartSignal = some s) (hlog : w0.m.Log ≠ none)
    (hrun : w0.running = true) (hin : w0.inflight = none)
    (hc : w0.m.c = some ⟨[], false⟩) (hsub : w0.wants s = true) :
    dispatch g (w0.m.Restartable g) s
      = .ok (Event.notice s :: w0.m.restarts.map (fun cb => Event.call .restart cb s),
          .next) ∧
    (∀ v : World, v.m.Log ≠ none → v.m.restartSignal = g.RestartSignal →
      v.running = true → v.inflight = some s →
      v.loopBody g = .ok { v with
        inflight := none
        trace := v.trace ++
          Event.notice s :: v.m.restarts.map (fun cb => Event.call .restart cb s) }) ∧
    World.run g { w0 with m := w0.m.Restartable g } (deliveries s k)
      = .ok { w0 with
          m := w0.m.Restartable g
          trace := w0.trace ++ (List.replicate k
            (Event.notice s :: w0.m.restarts.map (fun cb => Event.call .restart cb s))).flatten } := by
  refine ⟨?_, ?_, ?_⟩
  · exact dispatch_restart g _ s hlog (by simp [Monitor.Restartable, hrs])
  · intro v h1 h2 h3 h4
    exact loopBody_restart g v s h1 (h2.trans hrs) h3 h4
  · generalize hw : ({ w0 with m := w0.m.Restartable g } : World) = w
    have h1 : w.m.Log ≠ none := by subst hw; exact hlog
    have h2 : w.m.restartSignal = some s := by subst hw; simp [Monitor.Restartable, hrs]
    have h3 : w.running = true := by subst hw; exact hrun
    have h4 : w.m.c = some ⟨[], false⟩ := by subst hw; exact hc
    have h5 : w.wants s = true := by subst hw; exact hsub
    have h6 : w.inflight = none := by subst hw; exact hin
    have hgoal : World.run g w (deliveries s k) = .ok { w with
        trace := w.trace ++ (List.replicate k
          (Event.notice s :: w.m.restarts.map (fun cb => Event.call .restart cb s))).flatten } := by
      clear hw
      induction k generalizing w with
      | zero => simp [deliveries, World.run]
      | succ k ih =>
        have hround := restart_round g w s h1 h2 h3 h6 h4 h5
        simp only [World.run, deliveries] at hround ⊢
        cases hd : w.step g (.deliver s) with
        | error e => simp [hd] at hround
        | ok wa =>
          simp only [hd] at hround ⊢
          cases hl : wa.step g .receive with
          | error e => simp [hl] at hround
          | ok wb =>
            simp only [hl] at hround ⊢
            cases hb : wb.step g .loopBody with
            | error e => simp [hb] at hround
            | ok wc =>
              simp only [hb] at hround ⊢
              injection hround with hwc
              subst hwc
              have hih := ih
                { w with trace := w.trace ++
                    (Event.notice s :: w.m.restarts.map (fun cb => Event.call .restart cb s)) }
                h1 h2 h3 h4 (by simpa [World.wants] using h5) h6
              rw [hih]
              simp [List.replicate_succ, List.append_assoc]
    rw [hgoal]
    subst hw
    rfl

/-- Two arrivals of restart signal 1 at `restartableWorld`, each dispatched
before the next. -/
theorem restart_signal_only_restarts_witness :
    World.run restartGlobals restartableWorld (deliveries 1 2)
      = .ok { restartableWorld with
          trace := [Event.notice 1, Event.call .restart ⟨5, 0⟩ 1,
            Event.notice 1, Event.call .restart ⟨5, 0⟩ 1] } :=
  (restart_signal_only_restarts restartGlobals restartableWorld 1 2 rfl (by decide)
    (by decide) (by decide) (by decide) (by decide)).2.2

/-- C5 fails in its last sentence: on `restartableWorld` (restart signal 1
designated with `Restartable` and subscribed, loop idle) signal 1 arrives twice
before the loop receives; the second arrival finds the one-slot channel full
and is dropped, and after the loop has drained the channel the restart
handler has been called once, not twice. -/
theorem restart_arrivals_dropped :
    restartableWorld.m.Restartable restartGlobals = restartableWorld.m ∧
    restartableWorld.m.restartSignal = some 1 ∧ restartableWorld.wants 1 = true ∧
    (restartableWorld.run restartGlobals
        [.deliver 1, .deliver 1, .receive, .loopBody, .receive, .loopBody]).map
        (fun w => (w.trace, w.inflight, w.m.c, w.running))
      = .ok ([Event.notice 1, Event.call .restart ⟨5, 0⟩ 1], none, some ⟨[], false⟩, true) := by
  decide

/-! ## What holds while the loop runs -/

/-- Every step that completes preserves `LoopInv`. -/
theorem loopInv_step (g : Globals) (w w1 : World) (a : Action)
    (hi : w.LoopInv) (h : w.step g a = .ok w1) : w1.LoopInv := by
  obtain ⟨hns, hrn⟩ := hi
  cases a with
  | Bind f =>
    simp only [World.step, Except.ok.injEq] at h; subst h
    exact ⟨hns, hrn⟩
  | Unbind f =>
    simp only [World.step, Except.ok.injEq] at h; subst h
    exact ⟨hns, hrn⟩
  | Restarts f =>
    simp only [World.step, Except.ok.injEq] at h; subst h
    exact ⟨hns, hrn⟩
  | Done f =>
    simp only [World.step, Except.ok.injEq] at h; subst h
    exact ⟨hns, hrn⟩
  | Restartable =>
    simp only [World.step, Except.ok.injEq] at h; subst h
    exact ⟨hns, hrn⟩
  | Start sig =>
    simp only [World.step, Except.ok.injEq] at h; subst h
    by_cases hs : w.m.started = true
    · simp only [World.Start, hs, if_true]
      exact ⟨hns, hrn⟩
    · have hs2 : w.m.started = false := by simpa using hs
      simp only [World.Start, hs, Bool.false_eq_true, if_false]
      refine ⟨fun hcontra => by simp at hcontra, fun _ => ⟨rfl, ?_, rfl, (hns hs2).2, by simp⟩⟩
      by_cases hl : w.m.Log = none
      · simp [hl]
      · simp [hl]
  | Stop =>
    simp only [World.step, Monitor.Stop] at h
    cases hc : w.m.c with
    | none => simp [hc] at h
    | some ch =>
      simp only [hc] at h
      by_cases hcl : ch.closed = true
      · simp [hcl] at h
      · simp only [hcl, Bool.false_eq_true, if_false, Except.ok.injEq] at h
        subst h
        refine ⟨hns, fun hr => ?_⟩
        obtain ⟨h1, h2, h3, h4, -⟩ := hrn hr
        exact ⟨h1, h2, h3, h4, by simp⟩
  | Wait =>
    simp only [World.step, Except.ok.injEq] at h; subst h
    exact ⟨hns, hrn⟩
  | deliver s =>
    simp only [World.step, World.deliver] at h
    by_cases hw : w.wants s = true
    · simp only [hw, if_true] at h
      cases hc : w.m.c with
      | none =>
        simp only [hc, Except.ok.injEq] at h; subst h
        exact ⟨hns, hrn⟩
      | some ch =>
        simp only [hc] at h
        by_cases hcl : ch.closed = true
        · simp [hcl] at h
        · simp only [hcl, Bool.false_eq_true, if_false] at h
          by_cases hlen : ch.buf.length < 1
          · simp only [hlen, if_true, Except.ok.injEq] at h; subst h
            refine ⟨hns, fun hr => ?_⟩
            obtain ⟨h1, h2, h3, h4, -⟩ := hrn hr
            exact ⟨h1, h2, h3, h4, by simp⟩
          · simp only [hlen, if_false, Except.ok.injEq] at h; subst h
            exact ⟨hns, hrn⟩
    · simp only [hw, Bool.false_eq_true, if_false, Except.ok.injEq] at h; subst h
      exact ⟨hns, hrn⟩
  | receive =>
    simp only [World.step, World.receive] at h
    by_cases hrun : w.running = true
    · obtain ⟨h1, h2, h3, h4, h5⟩ := hrn hrun
      have hst : ¬ w.m.started = false := by simp [h1]
      simp only [hrun, if_true] at h
      cases hin : w.inflight with
      | some x =>
        simp only [hin, Except.ok.injEq] at h; subst h
        exact ⟨hns, hrn⟩
      | none =>
        simp only [hin] at h
        cases hc : w.m.c with
        | none => exact absurd hc h5
        | some ch =>
          obtain ⟨buf, cl⟩ := ch
          cases buf with
          | nil =>
            simp only [hc] at h
            by_cases hcl : cl = true
            · simp only [hcl, if_true, Except.ok.injEq] at h; subst h
              exact ⟨fun hx => absurd hx hst, fun hx => by simp at hx⟩
            · simp only [hcl, Bool.false_eq_true, if_false, Except.ok.injEq] at h; subst h
              exact ⟨hns, hrn⟩
          | cons sig rest =>
            simp only [hc, Except.ok.injEq] at h; subst h
            exact ⟨fun hx => absurd hx hst, fun _ => ⟨h1, h2, h3, h4, by simp⟩⟩
    · simp only [hrun, Bool.false_eq_true, if_false, Except.ok.injEq] at h; subst h
      exact ⟨hns, hrn⟩
  | loopBody =>
    simp only [World.step, World.loopBody] at h
    by_cases hrun : w.running = true
    · obtain ⟨h1, h2, h3, h4, h5⟩ := hrn hrun
      have hst : ¬ w.m.started = false := by simp [h1]
      simp only [hrun, if_true] at h
      cases hin : w.inflight with
      | none =>
        simp only [hin, Except.ok.injEq] at h; subst h
        exact ⟨hns, hrn⟩
      | some sig =>
        simp only [hin] at h
        cases hd : dispatch g w.m sig with
        | error e => simp [hd] at h
        | ok r =>
          obtain ⟨evs, ctl⟩ := r
          simp only [hd] at h
          cases ctl with
          | next =>
            simp only [Except.ok.injEq] at h; subst h
            exact ⟨fun hx => absurd hx hst, fun _ => ⟨h1, h2, h3, h4, h5⟩⟩
          | ret s1 =>
            simp only [Except.ok.injEq] at h; subst h
            exact ⟨fun hx => absurd hx hst, fun hx => by simp at hx⟩
    · simp only [hrun, Bool.false_eq_true, if_false, Except.ok.injEq] at h; subst h
      exact ⟨hns, hrn⟩
  | runDone =>
    simp only [World.step, World.runDone] at h
    cases hp : w.pending with
    | nil =>
      simp only [hp, Except.ok.injEq] at h; subst h
      exact ⟨hns, hrn⟩
    | cons sig rest =>
      have hrun : ¬ w.running = true := by
        intro hr
        have := (hrn hr).2.2.2.1
        simp [hp] at this
      have hst : ¬ w.m.started = false := by
        intro hx
        have := (hns hx).2
        simp [hp] at this
      simp only [hp, doneTask] at h
      cases hdc : w.m.doneC with
      | none => simp [hdc] at h
      | some d =>
        simp only [hdc] at h
        by_cases hcl : d.closed = true
        · simp [hcl] at h
        · simp only [hcl, Bool.false_eq_true, if_false, Except.ok.injEq] at h
          subst h
          exact ⟨fun hx => absurd hx hst, fun hx => absurd hx hrun⟩

/-- In every state reached from a zero-valued monitor, a running loop belongs to
a started monitor with a logger, a channel, an open `doneC` and no launched
done goroutine. -/
theorem loopInv_reachable (g : Globals) (acts : List Action) (w : World)
    (h : World.fresh.run g acts = .ok w) : w.LoopInv := by
  have hgen : ∀ (acts : List Action) (w0 w1 : World), w0.LoopInv →
      w0.run g acts = .ok w1 → w1.LoopInv := by
    intro acts
    induction acts with
    | nil =>
      intro w0 w1 hi h
      simp only [World.run, Except.ok.injEq] at h; subst h
      exact hi
    | cons a acts ih =>
      intro w0 w1 hi h
      simp only [World.run] at h
      cases hstep : w0.step g a with
      | error e => simp [hstep] at h
      | ok w2 =>
        simp only [hstep] at h
        exact ih w2 w1 (loopInv_step g w0 w2 a hi hstep) h
  exact hgen acts World.fresh w ⟨fun _ => ⟨rfl, rfl⟩, fun hx => by simp [World.fresh] at hx⟩ h

/-! ## After the loop has ended -/

/-- Once `Quiet`, every action that completes keeps the world `Quiet`, adds no
event to the trace, leaves `doneC` and the subscriptions as they are and does
not revive the loop. -/
theorem quiet_step (g : Globals) (w w1 : World) (a : Action)
    (hq : w.Quiet) (h : w.step g a = .ok w1) :
    w1.Quiet ∧ w1.trace = w.trace ∧ w1.m.doneC = w.m.doneC ∧
      (w.running = false → w1.running = false) ∧
      w1.subscriptions = w.subscriptions := by
  obtain ⟨hs, hp, hrc⟩ := hq
  cases a with
  | Bind f =>
    simp only [World.step, Except.ok.injEq] at h; subst h
    exact ⟨⟨hs, hp, hrc⟩, rfl, rfl, fun h => h, rfl⟩
  | Unbind f =>
    simp only [World.step, Except.ok.injEq] at h; subst h
    exact ⟨⟨hs, hp, hrc⟩, rfl, rfl, fun h => h, rfl⟩
  | Restarts f =>
    simp only [World.step, Except.ok.injEq] at h; subst h
    exact ⟨⟨hs, hp, hrc⟩, rfl, rfl, fun h => h, rfl⟩
  | Done f =>
    simp only [World.step, Except.ok.injEq] at h; subst h
    exact ⟨⟨hs, hp, hrc⟩, rfl, rfl, fun h => h, rfl⟩
  | Restartable =>
    simp only [World.step, Except.ok.injEq] at h; subst h
    exact ⟨⟨hs, hp, hrc⟩, rfl, rfl, fun h => h, rfl⟩
  | Start sig =>
    simp only [World.step, World.Start, hs, if_true, Except.ok.injEq] at h; subst h
    exact ⟨⟨hs, hp, hrc⟩, rfl, rfl, fun h => h, rfl⟩
  | Stop =>
    simp only [World.step, Monitor.Stop] at h
    cases hc : w.m.c with
    | none => simp [hc] at h
    | some ch =>
      simp only [hc] at h
      by_cases hcl : ch.closed = true
      · simp [hcl] at h
      · simp only [hcl, Bool.false_eq_true, if_false, Except.ok.injEq] at h
        subst h
        refine ⟨⟨hs, hp, ?_⟩, rfl, rfl, fun h => h, rfl⟩
        rcases hrc with hr | ⟨-, hr⟩
        · exact Or.inl hr
        · rw [hc] at hr
          injection hr with hr
          subst hr
          simp at hcl
  | Wait =>
    simp only [World.step, Except.ok.injEq] at h; subst h
    exact ⟨⟨hs, hp, hrc⟩, rfl, rfl, fun h => h, rfl⟩
  | deliver s =>
    simp only [World.step, World.deliver] at h
    by_cases hw : w.wants s = true
    · simp only [hw, if_true] at h
      cases hc : w.m.c with
      | none =>
        simp only [hc, Except.ok.injEq] at h; subst h
        exact ⟨⟨hs, hp, hrc⟩, rfl, rfl, fun h => h, rfl⟩
      | some ch =>
        simp only [hc] at h
        by_cases hcl : ch.closed = true
        · simp [hcl] at h
        · simp only [hcl, Bool.false_eq_true, if_false] at h
          have hrun : w.running = false := by
            rcases hrc with hr | ⟨-, hr⟩
            · exact hr
            · rw [hc] at hr
              injection hr with hr
              subst hr
              simp at hcl
          by_cases hlen : ch.buf.length < 1
          · simp only [hlen, if_true, Except.ok.injEq] at h; subst h
            exact ⟨⟨hs, hp, Or.inl hrun⟩, rfl, rfl, fun h => h, rfl⟩
          · simp only [hlen, if_false, Except.ok.injEq] at h; subst h
            exact ⟨⟨hs, hp, hrc⟩, rfl, rfl, fun h => h, rfl⟩
    · simp only [hw, Bool.false_eq_true, if_false, Except.ok.injEq] at h; subst h
      exact ⟨⟨hs, hp, hrc⟩, rfl, rfl, fun h => h, rfl⟩
  | receive =>
    simp only [World.step, World.receive] at h
    rcases hrc with hr | ⟨hin, hr⟩
    · simp only [hr, Bool.false_eq_true, if_false, Except.ok.injEq] at h; subst h
      exact ⟨⟨hs, hp, Or.inl hr⟩, rfl, rfl, fun h => h, rfl⟩
    · by_cases hrun : w.running = true
      · simp only [hrun, if_true, hin, hr, Except.ok.injEq] at h; subst h
        exact ⟨⟨hs, hp, Or.inl rfl⟩, rfl, rfl, fun _ => rfl, rfl⟩
      · simp only [hrun, Bool.false_eq_true, if_false, Except.ok.injEq] at h; subst h
        exact ⟨⟨hs, hp, Or.inr ⟨hin, hr⟩⟩, rfl, rfl, fun h => h, rfl⟩
  | loopBody =>
    simp only [World.step, World.loopBody] at h
    rcases hrc with hr | ⟨hin, hr⟩
    · simp only [hr, Bool.false_eq_true, if_false, Except.ok.injEq] at h; subst h
      exact ⟨⟨hs, hp, Or.inl hr⟩, rfl, rfl, fun h => h, rfl⟩
    · by_cases hrun : w.running = true
      · simp only [hrun, if_true, hin, Except.ok.injEq] at h; subst h
        exact ⟨⟨hs, hp, Or.inr ⟨hin, hr⟩⟩, rfl, rfl, fun h => h, rfl⟩
      · simp only [hrun, Bool.false_eq_true, if_false, Except.ok.injEq] at h; subst h
        exact ⟨⟨hs, hp, Or.inr ⟨hin, hr⟩⟩, rfl, rfl, fun h => h, rfl⟩
  | runDone =>
    simp only [World.step, World.runDone, hp, Except.ok.injEq] at h; subst h
    exact ⟨⟨hs, hp, hrc⟩, rfl, rfl, fun h => h, rfl⟩

/-- Once `Quiet`, no sequence of actions adds an event or touches `doneC`. -/
theorem quiet_run (g : Globals) (acts : List Action) (w w1 : World)
    (hq : w.Quiet) (h : w.run g acts = .ok w1) :
    w1.Quiet ∧ w1.trace = w.trace ∧ w1.m.doneC = w.m.doneC ∧
      (w.running = false → w1.running = false) ∧
      w1.subscriptions = w.subscriptions := by
  induction acts generalizing w with
  | nil =>
    simp only [World.run, Except.ok.injEq] at h; subst h
    exact ⟨hq, rfl, rfl, fun h => h, rfl⟩
  | cons a acts ih =>
    simp only [World.run] at h
    cases hstep : w.step g a with
    | error e => simp [hstep] at h
    | ok w2 =>
      simp only [hstep] at h
      obtain ⟨hq2, ht2, hd2, hr2, hb2⟩ := quiet_step g w w2 a hq hstep
      obtain ⟨hq3, ht3, hd3, hr3, hb3⟩ := ih w2 hq2 h
      exact ⟨hq3, ht3.trans ht2, hd3.trans hd2, fun h => hr3 (hr2 h), hb3.trans hb2⟩

/-- Once `Quiet`, an action panics only if it is `Stop` or the arrival of a
subscribed signal. -/
theorem quiet_step_ok (g : Globals) (w : World) (a : Action) (hq : w.Quiet)
    (hstop : a ≠ .Stop) (hdel : ∀ s, a = .deliver s → w.wants s = false) :
    ∃ w1, w.step g a = .ok w1 := by
  obtain ⟨hs, hp, hrc⟩ := hq
  cases a with
  | Stop => exact absurd rfl hstop
  | deliver s => simp [World.step, World.deliver, hdel s rfl]
  | receive =>
    rcases hrc with hr | ⟨hin, hr⟩
    · simp [World.step, World.receive, hr]
    · by_cases hrun : w.running = true
      · simp [World.step, World.receive, hrun, hin, hr]
      · simp [World.step, World.receive, hrun]
  | loopBody =>
    rcases hrc with hr | ⟨hin, hr⟩
    · simp [World.step, World.loopBody, hr]
    · by_cases hrun : w.running = true
      · simp [World.step, World.loopBody, hrun, hin]
      · simp [World.step, World.loopBody, hrun]
  | runDone => simp [World.step, World.runDone, hp]
  | _ => simp [World.step]

/-- Once `Quiet`, a sequence of actions with no `Stop` and no arrival of a
subscribed signal completes. -/
theorem quiet_run_ok (g : Globals) (acts : List Action) (w : World) (hq : w.Quiet)
    (hacts : ∀ a ∈ acts, a ≠ .Stop ∧ ∀ s, a = .deliver s → w.wants s = false) :
    ∃ w1, w.run g acts = .ok w1 := by
  induction acts generalizing w with
  | nil => exact ⟨w, rfl⟩
  | cons a acts ih =>
    obtain ⟨hstop, hdel⟩ := hacts a (List.mem_cons_self _ _)
    obtain ⟨w2, hstep⟩ := quiet_step_ok g w a hq hstop hdel
    obtain ⟨hq2, -, -, -, hsub⟩ := quiet_step g w w2 a hq hstep
    simp only [World.run, hstep]
    apply ih w2 hq2
    intro b hb
    obtain ⟨h1, h2⟩ := hacts b (List.mem_cons_of_mem _ hb)
    refine ⟨h1, fun s hs => ?_⟩
    have := h2 s hs
    simpa [World.wants, hsub] using this

/-- The arrival of a subscribed signal when the channel is closed: the send of
`os/signal` panics. -/
theorem deliver_closed_panics (w : World) (s : Signal) (buf : List Signal)
    (hsub : w.wants s = true) (hc : w.m.c = some ⟨buf, true⟩) :
    w.deliver s = .error .sendClosedChannel := by
  simp [World.deliver, hsub, hc]

/-- With the loop ended, no done goroutine waiting and the channel not closed,
arrivals of signals and scheduling steps never panic. -/
theorem stopped_signals_ok (g : Globals) (acts : List Action) (w : World)
    (hrun : w.running = false) (hp : w.pending = [])
    (hopen : ∀ ch, w.m.c = some ch → ch.closed = false)
    (hacts : ∀ a ∈ acts, a.isCall = false) : ∃ w1, w.run g acts = .ok w1 := by
  induction acts generalizing w with
  | nil => exact ⟨w, rfl⟩
  | cons a acts ih =>
    have ha := hacts a (List.mem_cons_self _ _)
    have hrest : ∀ b ∈ acts, b.isCall = false := fun b hb => hacts b (List.mem_cons_of_mem _ hb)
    cases a with
    | deliver s =>
      by_cases hw : w.wants s = true
      · cases hc : w.m.c with
        | none =>
          simp only [World.run, World.step, World.deliver, hw, if_true, hc]
          exact ih w hrun hp hopen hrest
        | some ch =>
          have hcl := hopen ch hc
          by_cases hlen : ch.buf.length < 1
          · simp only [World.run, World.step, World.deliver, hw, if_true, hc, hcl,
              Bool.false_eq_true, if_false, hlen]
            refine ih _ hrun hp ?_ hrest
            intro ch2 h2
            simp only [Option.some.injEq] at h2
            subst h2
            rfl
          · simp only [World.run, World.step, World.deliver, hw, if_true, hc, hcl,
              Bool.false_eq_true, if_false, hlen]
            exact ih w hrun hp hopen hrest
      · simp only [World.run, World.step, World.deliver, hw, Bool.false_eq_true, if_false]
        exact ih w hrun hp hopen hrest
    | receive =>
      simp only [World.run, World.step, World.receive, hrun, Bool.false_eq_true, if_false]
      exact ih w hrun hp hopen hrest
    | loopBody =>
      simp only [World.run, World.step, World.loopBody, hrun, Bool.false_eq_true, if_false]
      exact ih w hrun hp hopen hrest
    | runDone =>
      simp only [World.run, World.step, World.runDone, hp]
      exact ih w hrun hp hopen hrest
    | _ => simp [Action.isCall] at ha

/-! ## A terminal signal -/

/-- The shutdown sequence from the state in which the loop has received `s`. -/
theorem shutdown_from_received (g : Globals) (w : World) (s : Signal)
    (hst : w.m.started = true) (hlog : w.m.Log ≠ none) (hrun : w.running = true)
    (hin : w.inflight = some s) (hd : w.m.doneC = some ⟨false⟩)
    (hp : w.pending = []) (hk : some s ∈ g.KillSignals)
    (hr : w.m.restartSignal ≠ some s) :
    ∃ w1 w2, w.loopBody g = .ok w1 ∧
      w1.trace = w.trace ++
        Event.notice s :: w.m.callbacks.map (fun cb => Event.call .generic cb.f s) ∧
      w1.running = false ∧ w1.pending = [s] ∧ w1.m.doneC = some ⟨false⟩ ∧
      w1.runDone = .ok w2 ∧
      w2.trace = w1.trace ++
        (w.m.done.map (fun cb => Event.call .done cb s) ++ [Event.closeDoneC]) ∧
      w2.m.doneC = some ⟨true⟩ ∧ w2.running = false ∧ w2.pending = [] ∧
      (∀ acts w3, w2.run g acts = .ok w3 →
        w3.trace = w2.trace ∧ w3.m.doneC = some ⟨true⟩ ∧ w3.running = false) ∧
      ((∀ ch, w.m.c = some ch → ch.closed = false) →
        ∀ acts, (∀ a ∈ acts, a.isCall = false) → ∃ w3, w2.run g acts = .ok w3) := by
  obtain ⟨m, subs, made, launched, running, inflight, pending, trace⟩ := w
  obtain ⟨Log, callbacks, started, done, restarts, c, doneC, restartSignal⟩ := m
  simp only at hst hlog hrun hin hd hp hr
  subst hst hrun hin hd hp
  have hdisp := dispatch_generic g
    { Log := Log, callbacks := callbacks, started := true, done := done,
      restarts := restarts, c := c, doneC := some ⟨false⟩,
      restartSignal := restartSignal } s hlog hr
  rw [killLoop_of_mem s _ hk] at hdisp
  refine ⟨
    { m := { Log := Log, callbacks := callbacks, started := true, done := done,
             restarts := restarts, c := c, doneC := some ⟨false⟩,
             restartSignal := restartSignal },
      subscriptions := subs, made := made, launched := launched, running := false,
      inflight := none, pending := [s], trace := trace ++
        Event.notice s :: callbacks.map (fun cb => Event.call .generic cb.f s) },
    { m := { Log := Log, callbacks := callbacks, started := true, done := done,
             restarts := restarts, c := c, doneC := some ⟨true⟩,
             restartSignal := restartSignal },
      subscriptions := subs, made := made, launched := launched, running := false,
      inflight := none, pending := [], trace := trace ++
        Event.notice s :: callbacks.map (fun cb => Event.call .generic cb.f s) ++
        (done.map (fun cb => Event.call .done cb s) ++ [Event.closeDoneC]) },
    ?_, rfl, rfl, rfl, rfl, ?_, rfl, rfl, rfl, rfl, ?_, ?_⟩
  · simp only [World.loopBody, if_true, hdisp]
    rfl
  · simp only [World.runDone, doneTask, Bool.false_eq_true, if_false]
  · intro acts w3 hrun3
    have hq : World.Quiet
        { m := { Log := Log, callbacks := callbacks, started := true, done := done,
                 restarts := restarts, c := c, doneC := some ⟨true⟩,
                 restartSignal := restartSignal },
          subscriptions := subs, made := made, launched := launched, running := false,
          inflight := none, pending := [], trace := trace ++
            Event.notice s :: callbacks.map (fun cb => Event.call .generic cb.f s) ++
            (done.map (fun cb => Event.call .done cb s) ++ [Event.closeDoneC]) } :=
      ⟨rfl, rfl, Or.inl rfl⟩
    obtain ⟨-, ht3, hd3, hr3, -⟩ := quiet_run g acts _ w3 hq (by simpa using hrun3)
    exact ⟨by simpa using ht3, hd3, hr3 rfl⟩
  · intro hopen acts hacts
    exact stopped_signals_ok g acts _ rfl rfl hopen hacts

/-- C6: in a started monitor whose loop is running, whose `doneC` is open and
which has launched no done goroutine, let `s`, a member of `KillSignals` that
is not the restart signal, be the signal the loop has received or the head of
the channel buffer, which its next receive takes. The iteration body logs
`s`, calls the generic handlers in registration order, launches one done
goroutine and returns. That goroutine calls the done handlers in registration
order and then closes `doneC`. From then on no sequence of actions adds an
event to the trace or reopens `doneC`, so that close is the only one; and
(when the channel was not closed by `Stop`) further arrivals of signals and
scheduling steps complete without a panic. `KillSignals` may list `s` any
number of times. -/
theorem terminal_signal_shutdown (g : Globals) (w : World) (s : Signal)
    (hst : w.m.started = true) (hlog : w.m.Log ≠ none) (hrun : w.running = true)
    (hrecv : w.inflight = some s ∨
      (w.inflight = none ∧ ∃ rest cl, w.m.c = some ⟨s :: rest, cl⟩))
    (hd : w.m.doneC = some ⟨false⟩)
    (hp : w.pending = []) (hk : some s ∈ g.KillSignals)
    (hr : w.m.restartSignal ≠ some s) :
    ∃ w0 w1 w2, w.receive = .ok w0 ∧ w0.inflight = some s ∧ w0.trace = w.trace ∧
      w0.loopBody g = .ok w1 ∧
      w1.trace = w.trace ++
        Event.notice s :: w.m.callbacks.map (fun cb => Event.call .generic cb.f s) ∧
      w1.running = false ∧ w1.pending = [s] ∧ w1.m.doneC = some ⟨false⟩ ∧
      w1.runDone = .ok w2 ∧
      w2.trace = w1.trace ++
        (w.m.done.map (fun cb => Event.call .done cb s) ++ [Event.closeDoneC]) ∧
      w2.m.doneC = some ⟨true⟩ ∧ w2.running = false ∧ w2.pending = [] ∧
      (∀ acts w3, w2.run g acts = .ok w3 →
        w3.trace = w2.trace ∧ w3.m.doneC = some ⟨true⟩ ∧ w3.running = false) ∧
      ((∀ ch, w.m.c = some ch → ch.closed = false) →
        ∀ acts, (∀ a ∈ acts, a.isCall = false) → ∃ w3, w2.run g acts = .ok w3) := by
  rcases hrecv with hin | ⟨hin, rest, cl, hc⟩
  · obtain ⟨w1, w2, h1, h2, h3, h4, h5, h6, h7, h8, h9, h10, h11, h12⟩ :=
      shutdown_from_received g w s hst hlog hrun hin hd hp hk hr
    refine ⟨w, w1, w2, ?_, hin, rfl, h1, h2, h3, h4, h5, h6, h7, h8, h9, h10, h11, h12⟩
    simp [World.receive, hrun, hin]
  · obtain ⟨w1, w2, h1, h2, h3, h4, h5, h6, h7, h8, h9, h10, h11, h12⟩ :=
      shutdown_from_received g
        { w with m := { w.m with c := some ⟨rest, cl⟩ }, inflight := some s } s
        hst hlog hrun rfl hd hp hk hr
    refine ⟨{ w with m := { w.m with c := some ⟨rest, cl⟩ }, inflight := some s }, w1, w2,
      ?_, rfl, rfl, h1, h2, h3, h4, h5, h6, h7, h8, h9, h10, h11, ?_⟩
    · simp [World.receive, hrun, hin, hc]
    · intro hopen
      apply h12
      intro ch hch
      simp only [Option.some.injEq] at hch
      subst hch
      exact hopen ⟨s :: rest, cl⟩ hc

/-- Signal 2, listed twice in `KillSignals`, received by `pendingSignalWorld`. -/
theorem terminal_signal_shutdown_witness :
    World.fresh.run repeatedKillGlobals [.Bind ⟨7, 0⟩, .Done ⟨6, 0⟩, .Start [], .deliver 2]
      = .ok pendingSignalWorld ∧
    ∃ w2, pendingSignalWorld.run repeatedKillGlobals [.receive, .loopBody, .runDone] = .ok w2 ∧
      w2.trace = [Event.notice 2, Event.call .generic ⟨7, 0⟩ 2, Event.call .done ⟨6, 0⟩ 2,
        Event.closeDoneC] ∧
      w2.m.doneC = some ⟨true⟩ := by
  obtain ⟨w0, w1, w2, h0, -, -, h1, ht1, -, -, -, h2, ht2, hd2, -⟩ :=
    terminal_signal_shutdown repeatedKillGlobals pendingSignalWorld 2 (by decide) (by decide)
      (by decide) (Or.inr ⟨rfl, [], false, rfl⟩) (by decide) (by decide) (by decide)
      (by decide)
  refine ⟨by decide, w2, ?_, ?_, hd2⟩
  · simp only [World.run, World.step, h0, h1, h2]
  · rw [ht2, ht1]
    decide

/-! ## Wait -/

theorem killLoop_ret (sig s1 : Signal) (ks : List OsSignal) (h : killLoop sig ks = .ret s1) :
    s1 = sig ∧ some sig ∈ ks := by
  induction ks with
  | nil => simp [killLoop] at h
  | cons k ks ih =>
    by_cases hk : k = some sig
    · simp only [killLoop, hk, ne_eq, not_true_eq_false, if_false, LoopCtl.ret.injEq] at h
      exact ⟨h.symm, by simp [hk]⟩
    · simp only [killLoop, ne_eq, hk, not_false_eq_true, if_true] at h
      exact ⟨(ih h).1, List.mem_cons_of_mem _ (ih h).2⟩

/-- Every iteration logs the signal, and returns only for a member of
`KillSignals`. -/
theorem dispatch_ok (g : Globals) (m : Monitor) (sig : Signal) (evs : List Event)
    (ctl : LoopCtl) (h : dispatch g m sig = .ok (evs, ctl)) :
    Event.notice sig ∈ evs ∧ ∀ s1, ctl = .ret s1 → s1 = sig ∧ some sig ∈ g.KillSignals := by
  cases hl : m.Log with
  | none => simp [dispatch, hl] at h
  | some l =>
    by_cases hr : some sig = m.restartSignal
    · simp only [dispatch, hl, hr, if_true, Except.ok.injEq, Prod.mk.injEq] at h
      obtain ⟨h1, h2⟩ := h
      subst h1 h2
      exact ⟨by simp, by intro s1 h; cases h⟩
    · simp only [dispatch, hl, hr, if_false, Except.ok.injEq, Prod.mk.injEq] at h
      obtain ⟨h1, h2⟩ := h
      subst h1
      refine ⟨by simp, ?_⟩
      intro s1 h
      exact killLoop_ret sig s1 _ (h2.trans h)

/-- Every step that completes preserves `DoneInv`. -/
theorem doneInv_step (g : Globals) (w w1 : World) (a : Action)
    (hi : w.DoneInv g) (h : w.step g a = .ok w1) : w1.DoneInv g := by
  obtain ⟨hpend, hclosed, hsome⟩ := hi
  cases a with
  | Bind f =>
    simp only [World.step, Except.ok.injEq] at h; subst h
    exact ⟨hpend, hclosed, hsome⟩
  | Unbind f =>
    simp only [World.step, Except.ok.injEq] at h; subst h
    exact ⟨hpend, hclosed, hsome⟩
  | Restarts f =>
    simp only [World.step, Except.ok.injEq] at h; subst h
    exact ⟨hpend, hclosed, hsome⟩
  | Done f =>
    simp only [World.step, Except.ok.injEq] at h; subst h
    exact ⟨hpend, hclosed, hsome⟩
  | Restartable =>
    simp only [World.step, Except.ok.injEq] at h; subst h
    exact ⟨hpend, hclosed, hsome⟩
  | Start sig =>
    simp only [World.step, Except.ok.injEq] at h; subst h
    by_cases hs : w.m.started = true
    · simp only [World.Start, hs, if_true]
      exact ⟨hpend, hclosed, hsome⟩
    · simp only [World.Start, hs, Bool.false_eq_true, if_false]
      refine ⟨hpend, ?_, by simp⟩
      intro d hd hcl
      simp only [Option.some.injEq] at hd
      subst hd
      cases hcl
  | Stop =>
    simp only [World.step, Monitor.Stop] at h
    cases hc : w.m.c with
    | none => simp [hc] at h
    | some ch =>
      simp only [hc] at h
      by_cases hcl : ch.closed = true
      · simp [hcl] at h
      · simp only [hcl, Bool.false_eq_true, if_false, Except.ok.injEq] at h
        subst h
        exact ⟨hpend, hclosed, hsome⟩
  | Wait =>
    simp only [World.step, Except.ok.injEq] at h; subst h
    exact ⟨hpend, hclosed, hsome⟩
  | deliver s =>
    simp only [World.step, World.deliver] at h
    by_cases hw : w.wants s = true
    · simp only [hw, if_true] at h
      cases hc : w.m.c with
      | none =>
        simp only [hc, Except.ok.injEq] at h; subst h
        exact ⟨hpend, hclosed, hsome⟩
      | some ch =>
        simp only [hc] at h
        by_cases hcl : ch.closed = true
        · simp [hcl] at h
        · simp only [hcl, Bool.false_eq_true, if_false] at h
          by_cases hlen : ch.buf.length < 1
          · simp only [hlen, if_true, Except.ok.injEq] at h; subst h
            exact ⟨hpend, hclosed, hsome⟩
          · simp only [hlen, if_false, Except.ok.injEq] at h; subst h
            exact ⟨hpend, hclosed, hsome⟩
    · simp only [hw, Bool.false_eq_true, if_false, Except.ok.injEq] at h; subst h
      exact ⟨hpend, hclosed, hsome⟩
  | receive =>
    simp only [World.step, World.receive] at h
    by_cases hrun : w.running = true
    · simp only [hrun, if_true] at h
      cases hin : w.inflight with
      | some x =>
        simp only [hin, Except.ok.injEq] at h; subst h
        exact ⟨hpend, hclosed, hsome⟩
      | none =>
        simp only [hin] at h
        cases hc : w.m.c with
        | none =>
          simp only [hc, Except.ok.injEq] at h; subst h
          exact ⟨hpend, hclosed, hsome⟩
        | some ch =>
          obtain ⟨buf, cl⟩ := ch
          cases buf with
          | nil =>
            simp only [hc] at h
            by_cases hcl : cl = true
            · simp only [hcl, if_true, Except.ok.injEq] at h; subst h
              exact ⟨hpend, hclosed, hsome⟩
            · simp only [hcl, Bool.false_eq_true, if_false, Except.ok.injEq] at h; subst h
              exact ⟨hpend, hclosed, hsome⟩
          | cons sig rest =>
            simp only [hc, Except.ok.injEq] at h; subst h
            exact ⟨hpend, hclosed, hsome⟩
    · simp only [hrun, Bool.false_eq_true, if_false, Except.ok.injEq] at h; subst h
      exact ⟨hpend, hclosed, hsome⟩
  | loopBody =>
    simp only [World.step, World.loopBody] at h
    by_cases hrun : w.running = true
    · simp only [hrun, if_true] at h
      cases hin : w.inflight with
      | none =>
        simp only [hin, Except.ok.injEq] at h; subst h
        exact ⟨hpend, hclosed, hsome⟩
      | some sig =>
        simp only [hin] at h
        cases hd : dispatch g w.m sig with
        | error e => simp [hd] at h
        | ok r =>
          obtain ⟨evs, ctl⟩ := r
          obtain ⟨hnot, hret⟩ := dispatch_ok g w.m sig evs ctl hd
          have hpend2 : ∀ x ∈ w.pending,
              some x ∈ g.KillSignals ∧ Event.notice x ∈ w.trace ++ evs := fun x hx =>
            ⟨(hpend x hx).1, List.mem_append_left _ (hpend x hx).2⟩
          have hclosed2 : ∀ d, w.m.doneC = some d → d.closed = true →
              ∃ x pre post, some x ∈ g.KillSignals ∧
                w.trace ++ evs = pre ++ Event.closeDoneC :: post ∧ Event.notice x ∈ pre := by
            intro d hdd hcl
            obtain ⟨x, pre, post, hx, htr, hn⟩ := hclosed d hdd hcl
            exact ⟨x, pre, post ++ evs, hx, by rw [htr]; simp, hn⟩
          simp only [hd] at h
          cases ctl with
          | next =>
            simp only [Except.ok.injEq] at h; subst h
            exact ⟨hpend2, hclosed2, hsome⟩
          | ret s1 =>
            simp only [Except.ok.injEq] at h; subst h
            obtain ⟨hs1, hk⟩ := hret s1 rfl
            subst hs1
            refine ⟨?_, hclosed2, hsome⟩
            intro x hx
            simp only [List.mem_append, List.mem_singleton] at hx
            rcases hx with hx | hx
            · exact hpend2 x hx
            · subst hx
              exact ⟨hk, List.mem_append_right _ hnot⟩
    · simp only [hrun, Bool.false_eq_true, if_false, Except.ok.injEq] at h; subst h
      exact ⟨hpend, hclosed, hsome⟩
  | runDone =>
    simp only [World.step, World.runDone] at h
    cases hp : w.pending with
    | nil =>
      simp only [hp, Except.ok.injEq] at h; subst h
      exact ⟨by simp [hp], hclosed, hsome⟩
    | cons sig rest =>
      simp only [hp, doneTask] at h
      cases hdc : w.m.doneC with
      | none => simp [hdc] at h
      | some d =>
        simp only [hdc] at h
        by_cases hcl : d.closed = true
        · simp [hcl] at h
        · simp only [hcl, Bool.false_eq_true, if_false, Except.ok.injEq] at h
          subst h
          have hsig := hpend sig (by simp [hp])
          refine ⟨?_, ?_, by simp⟩
          · intro x hx
            have := hpend x (by simp [hp, hx])
            exact ⟨this.1, List.mem_append_left _ this.2⟩
          · intro d2 _ _
            exact ⟨sig, w.trace ++ w.m.done.map (fun cb => Event.call .done cb sig), [],
              hsig.1, by simp, List.mem_append_left _ hsig.2⟩

/-- Every run that completes preserves `DoneInv`. -/
theorem doneInv_run (g : Globals) (acts : List Action) (w w1 : World)
    (hi : w.DoneInv g) (h : w.run g acts = .ok w1) : w1.DoneInv g := by
  induction acts generalizing w with
  | nil =>
    simp only [World.run, Except.ok.injEq] at h; subst h
    exact hi
  | cons a acts ih =>
    simp only [World.run] at h
    cases hstep : w.step g a with
    | error e => simp [hstep] at h
    | ok w2 =>
      simp only [hstep] at h
      exact ih w2 (doneInv_step g w w2 a hi hstep) h

/-- C7 (amended): the package-level `Wait`, on a monitor on which `Start` was
never called (so nothing has run and the trace is empty), first does what
`Start()` does: it subscribes to the default signals, marks the monitor
started and makes `doneC`, open. The call is then blocked. In every later
state it returns exactly when `doneC` is closed, and then the trace shows the
close of `doneC` after the log line of a received member of `KillSignals`. -/
theorem Wait_starts_then_blocks (g : Globals) (w : World)
    (hst : w.m.started = false) (hp : w.pending = []) (htr : w.trace = []) :
    (Wait g w).1 = World.Start g w [] ∧
    (Wait g w).1.subscriptions = w.subscriptions ++ [g.KillSignals ++ [g.RestartSignal]] ∧
    (Wait g w).1.m.started = true ∧ (Wait g w).1.m.doneC = some ⟨false⟩ ∧
    (Wait g w).1.trace = [] ∧ (Wait g w).2 = .blocked ∧
    ∀ acts w1, (Wait g w).1.run g acts = .ok w1 →
      (w1.m.Wait = .returned ↔ w1.m.doneC = some ⟨true⟩) ∧
      (w1.m.Wait = .returned → ∃ sig pre post, some sig ∈ g.KillSignals ∧
        w1.trace = pre ++ Event.closeDoneC :: post ∧ Event.notice sig ∈ pre) := by
  have hm := Start_m_of_not_started g w [] hst
  have hdone : (World.Start g w []).m.doneC = some ⟨false⟩ := by rw [hm]
  have hpend : (World.Start g w []).pending = [] := by simp [World.Start, hst, hp]
  refine ⟨rfl, by simp [Wait, World.Start, hst], Start_started g w [], hdone,
    by simp [Wait, World.Start, hst, htr], ?_, ?_⟩
  · simp [Wait, Monitor.Wait, hdone]
  · intro acts w1 hrun
    have hi : (World.Start g w []).DoneInv g := by
      refine ⟨by simp [hpend], ?_, by simp [hdone]⟩
      intro d hd hcl
      rw [hdone] at hd
      simp only [Option.some.injEq] at hd
      subst hd
      cases hcl
    obtain ⟨-, hclosed, hsome⟩ := doneInv_run g acts _ w1 hi hrun
    cases hd1 : w1.m.doneC with
    | none => exact absurd hd1 hsome
    | some d =>
      obtain ⟨cl⟩ := d
      cases cl with
      | false => simp [Monitor.Wait, hd1]
      | true =>
        refine ⟨by simp [Monitor.Wait, hd1], fun _ => hclosed _ hd1 rfl⟩

/-- The package-level `Wait` on a zero-valued monitor, then signal 15. -/
theorem Wait_starts_then_blocks_witness :
    (Wait defaultGlobals World.fresh).2 = .blocked ∧
    (Wait defaultGlobals World.fresh).1.subscriptions = [[some 2, some 15, none]] ∧
    ((Wait defaultGlobals World.fresh).1.run defaultGlobals
        [.deliver 15, .receive, .loopBody, .runDone]).map (fun w => w.m.Wait)
      = .ok .returned :=
  ⟨(Wait_starts_then_blocks defaultGlobals World.fresh rfl rfl rfl).2.2.2.2.2.1,
   (Wait_starts_then_blocks defaultGlobals World.fresh rfl rfl rfl).2.1,
   by decide⟩

/-- C7 fails for the method `Monitor.Wait`: on a monitor on which `Start` was
never called it returns at once, and the monitor is still not started. -/
theorem Monitor_Wait_unstarted_returns :
    World.fresh.m.started = false ∧ World.fresh.m.Wait = .returned ∧
    World.fresh.step defaultGlobals .Wait = .ok World.fresh := by
  decide

/-! ## Stop on a running loop -/

/-- C10 (amended): in a started monitor whose loop is running and waiting at the
receive, with no signal received and not yet dispatched and none in the
channel, whose `doneC` is open and which has launched no done goroutine,
`Stop` closes the channel and changes nothing else: the three registries,
`doneC` and the trace are as before. The loop then ends at its next step
without receiving a signal. After every later sequence of actions that
completes, the trace is unchanged, `doneC` is open and `Wait` is blocked; and
every later sequence of actions with no further `Stop` and no arrival of a
subscribed signal completes. -/
theorem Stop_ends_idle_loop (g : Globals) (w : World)
    (hst : w.m.started = true) (hrun : w.running = true) (hin : w.inflight = none)
    (hc : w.m.c = some ⟨[], false⟩) (hd : w.m.doneC = some ⟨false⟩)
    (hp : w.pending = []) :
    ∃ w1 w2, w.step g .Stop = .ok w1 ∧
      w1 = { w with m := { w.m with c := some ⟨[], true⟩ } } ∧
      w1.m.callbacks = w.m.callbacks ∧ w1.m.restarts = w.m.restarts ∧
      w1.m.done = w.m.done ∧ w1.m.doneC = some ⟨false⟩ ∧ w1.trace = w.trace ∧
      w1.step g .receive = .ok w2 ∧ w2.running = false ∧ w2.trace = w.trace ∧
      w2.pending = [] ∧ w2.inflight = none ∧
      (∀ acts w3, w1.run g acts = .ok w3 →
        w3.trace = w.trace ∧ w3.m.doneC = some ⟨false⟩ ∧ w3.m.Wait = .blocked) ∧
      (∀ acts, (∀ a ∈ acts, a ≠ .Stop ∧ ∀ s, a = .deliver s → w.wants s = false) →
        ∃ w3, w1.run g acts = .ok w3) := by
  have hq : World.Quiet { w with m := { w.m with c := some ⟨[], true⟩ } } :=
    ⟨hst, hp, Or.inr ⟨hin, rfl⟩⟩
  refine ⟨{ w with m := { w.m with c := some ⟨[], true⟩ } },
    { w with m := { w.m with c := some ⟨[], true⟩ }, running := false },
    ?_, rfl, rfl, rfl, rfl, hd, rfl, ?_, rfl, rfl, hp, hin, ?_, ?_⟩
  · simp [World.step, Monitor.Stop, hc]
  · simp [World.step, World.receive, hrun, hin]
  · intro acts w3 hrun3
    obtain ⟨-, ht3, hd3, -, -⟩ := quiet_run g acts _ w3 hq hrun3
    have hd4 : w3.m.doneC = some ⟨false⟩ := by rw [hd3]; exact hd
    exact ⟨ht3, hd4, by simp [Monitor.Wait, hd4]⟩
  · intro acts hacts
    exact quiet_run_ok g acts _ hq hacts

/-- `Stop` on `restartableWorld`, whose loop is idle, followed by calls and steps
that are neither `Stop` nor an arrival. -/
theorem Stop_ends_idle_loop_witness :
    (restartableWorld.run restartGlobals
        [.Stop, .receive, .Bind ⟨8, 0⟩, .loopBody, .runDone, .deliver 10, .Wait]).map
        (fun w => (w.trace, w.m.doneC, w.m.Wait, w.running))
      = .ok ([], some ⟨false⟩, .blocked, false) ∧
    ∃ w1 w2, restartableWorld.step restartGlobals .Stop = .ok w1 ∧
      w1 = { restartableWorld with m := { restartableWorld.m with c := some ⟨[], true⟩ } } ∧
      w1.m.callbacks = restartableWorld.m.callbacks ∧
      w1.m.restarts = restartableWorld.m.restarts ∧
      w1.m.done = restartableWorld.m.done ∧ w1.m.doneC = some ⟨false⟩ ∧
      w1.trace = restartableWorld.trace ∧
      w1.step restartGlobals .receive = .ok w2 ∧ w2.running = false ∧
      w2.trace = restartableWorld.trace ∧ w2.pending = [] ∧ w2.inflight = none ∧
      (∀ acts w3, w1.run restartGlobals acts = .ok w3 →
        w3.trace = restartableWorld.trace ∧ w3.m.doneC = some ⟨false⟩ ∧
          w3.m.Wait = .blocked) ∧
      (∀ acts, (∀ a ∈ acts, a ≠ .Stop ∧
          ∀ s, a = .deliver s → restartableWorld.wants s = false) →
        ∃ w3, w1.run restartGlobals acts = .ok w3) :=
  ⟨by decide,
   Stop_ends_idle_loop restartGlobals restartableWorld (by decide) (by decide) (by decide)
    (by decide) (by decide) (by decide)⟩

/-- C10 fails when the loop holds or is about to take a signal. In
`receivedSignalWorld` the monitor is started, the loop is alive, the channel is
open and empty and `doneC` is open, the loop having received signal 2: after
`Stop` the iteration body still calls the generic handler and launches the done
goroutine, which calls the done handler and closes `doneC`, and `Wait` returns.
The same happens from `pendingSignalWorld`, where signal 2 is still in the
channel when `Stop` is called. -/
theorem Stop_with_pending_signal :
    pendingSignalWorld.step repeatedKillGlobals .receive = .ok receivedSignalWorld ∧
    receivedSignalWorld.m.started = true ∧ receivedSignalWorld.running = true ∧
    receivedSignalWorld.m.c = some ⟨[], false⟩ ∧
    receivedSignalWorld.m.doneC = some ⟨false⟩ ∧
    (receivedSignalWorld.run repeatedKillGlobals [.Stop, .loopBody, .runDone]).map
        (fun w => (w.trace, w.m.doneC, w.m.Wait))
      = .ok ([Event.notice 2, Event.call .generic ⟨7, 0⟩ 2, Event.call .done ⟨6, 0⟩ 2,
          Event.closeDoneC], some ⟨true⟩, .returned) ∧
    (pendingSignalWorld.run repeatedKillGlobals [.Stop, .receive, .loopBody, .runDone]).map
        (fun w => (w.trace, w.m.doneC, w.m.Wait))
      = .ok ([Event.notice 2, Event.call .generic ⟨7, 0⟩ 2, Event.call .done ⟨6, 0⟩ 2,
          Event.closeDoneC], some ⟨true⟩, .returned) := by
  decide

end Signald
